import Mathlib

/-!
Verification of the Exam-Simulator question-validation / normalization /
difficulty pipeline (`src/utils.py`) and the exam-submission state machine
(`submit_exam` in `src/app.py`).

Python strings are modelled as Lean `String` / `List Char` (ASCII case
mapping, which covers every character class the source manipulates).
Python floats are modelled as exact rationals `ℚ`.  The similarity
primitive `difflib.SequenceMatcher(None, a, b).ratio()` is an external
standard-library collaborator (the spec's SimilarityMatcher boundary); it
is modelled as an abstract parameter `ratio : String → String → ℚ`, about
which theorems assume only what the library guarantees (e.g. a string has
ratio 1 with itself).
-/

namespace ExamSim


/-! ### Python string primitives (ASCII model) -/

/-- The whitespace characters of Python's `str.strip` / regex `\s` (ASCII). -/
def isSpace (c : Char) : Bool :=
  c = ' ' || c = '\t' || c = '\n' || c = '\r' || c = '\x0b' || c = '\x0c'

/-- The punctuation class `[?.!,;:]` used by `auto_fix_question_formatting`. -/
def isPunct6 (c : Char) : Bool :=
  c = '?' || c = '.' || c = '!' || c = ',' || c = ';' || c = ':'

/-- The punctuation class `[,;:]` used by `auto_fix_option_formatting`. -/
def isPunct3 (c : Char) : Bool :=
  c = ',' || c = ';' || c = ':'

/-- Python `str.strip()` on a character list. -/
def pyStripL (l : List Char) : List Char :=
  ((l.dropWhile isSpace).reverse.dropWhile isSpace).reverse

/-- Python `str.strip()`. -/
def pyStrip (s : String) : String := String.mk (pyStripL s.data)

/-- ASCII lower-casing of one character (Python `str.lower`). -/
def pyLowerChar (c : Char) : Char :=
  if 'A' ≤ c ∧ c ≤ 'Z' then Char.ofNat (c.toNat + 32) else c

/-- ASCII upper-casing of one character (Python `str.upper`): code points
97–122 (a–z) map down by 32, everything else is unchanged. -/
def pyUpperChar (c : Char) : Char :=
  if 97 ≤ c.toNat ∧ c.toNat ≤ 122 then Char.ofNat (c.toNat - 32) else c

/-- Python `str.lower()`. -/
def pyLower (s : String) : String := String.mk (s.data.map pyLowerChar)

/-- Worker for `collapseWS`: `inRun` records whether the previous
character belonged to a whitespace run that has already emitted its
single replacement space. -/
def collapseWSA (inRun : Bool) : List Char → List Char
  | [] => []
  | c :: rest =>
    if isSpace c then
      if inRun then collapseWSA true rest else ' ' :: collapseWSA true rest
    else c :: collapseWSA false rest

/-- Model of `re.sub(r'\s+', ' ', ·)`: collapse every maximal whitespace run to one
space. -/
def collapseWS (l : List Char) : List Char := collapseWSA false l

/-- Worker for `rmSpaceBefore`: `pending` holds a whitespace run read but
not yet emitted; it is dropped when the run turns out to precede a `P`
character (the regex match `\s+P ↦ P`) and emitted verbatim otherwise. -/
def rmSB (P : Char → Bool) (pending : List Char) : List Char → List Char
  | [] => pending
  | c :: rest =>
    if isSpace c then rmSB P (pending ++ [c]) rest
    else if P c ∧ ¬ pending.isEmpty then c :: rmSB P [] rest
    else pending ++ c :: rmSB P [] rest

/-- Model of `re.sub(r'\s+(P)', r'\1', ·)`: delete whitespace runs that stand
immediately before a character of class `P` (leftmost, non-overlapping,
exactly as Python's `re.sub` scans; a run not followed by a `P` character
is kept verbatim). -/
def rmSpaceBefore (P : Char → Bool) (l : List Char) : List Char := rmSB P [] l

/-- Model of `re.sub(r'(P)([^\s])', r'\1 \2', ·)`: insert a space between a `P`
character and a following non-whitespace character; scanning resumes after
the two matched characters, as Python's `re.sub` does. -/
def addSpaceAfter (P : Char → Bool) : List Char → List Char
  | [] => []
  | [c] => [c]
  | c1 :: c2 :: rest =>
    if P c1 && !isSpace c2 then c1 :: ' ' :: c2 :: addSpaceAfter P rest
    else c1 :: addSpaceAfter P (c2 :: rest)

/-- Worker for `collapseRun`: `inRun` records whether the previous
character was the collapsed character, whose run already emitted its
single copy. -/
def collapseRunA (d : Char) (inRun : Bool) : List Char → List Char
  | [] => []
  | c :: rest =>
    if c = d then
      if inRun then collapseRunA d true rest else d :: collapseRunA d true rest
    else c :: collapseRunA d false rest

/-- Model of `re.sub(r'd{2,}', 'd', ·)`: collapse runs of the character `d` to a
single occurrence (a run of length one is re-emitted unchanged, which the
regex leaves alone as well). -/
def collapseRun (d : Char) (l : List Char) : List Char := collapseRunA d false l

/-- First whitespace-separated word of a list (Python `text.split()[0]`
when a word exists, `''` when `text.split()` is empty). -/
def firstWordL (l : List Char) : List Char :=
  (l.dropWhile isSpace).takeWhile (fun c => !isSpace c)

/-- Python `text[0].upper() + text[1:]`. -/
def capitalizeHead : List Char → List Char
  | [] => []
  | c :: rest => pyUpperChar c :: rest

/-- The `question_starters` list of `auto_fix_question_formatting`. -/
def question_starters : List String :=
  ["what", "when", "where", "who", "why", "how", "which", "is", "are",
   "do", "does", "can", "could", "would", "should"]

/-- Transcription of `auto_fix_question_formatting` from `src/utils.py` (the spec's
`normalize_question`): collapse whitespace, append terminal punctuation,
capitalize, fix spacing around punctuation, collapse repeated `.` / `?`. -/
def auto_fix_question_formatting (s : String) : String :=
  if s = "" then s
  else
    let t1 := collapseWS (pyStripL s.data)
    let t2 :=
      match t1.getLast? with
      | none => t1
      | some c =>
        if c = '.' ∨ c = '?' ∨ c = '!' then t1
        else
          if String.mk ((firstWordL t1).map pyLowerChar) ∈ question_starters
          then t1 ++ ['?'] else t1 ++ ['.']
    let t3 := capitalizeHead t2
    let t4 := rmSpaceBefore isPunct6 t3
    let t5 := addSpaceAfter isPunct6 t4
    let t6 := collapseRun '?' (collapseRun '.' t5)
    String.mk t6

/-- One pass of the trailing-punctuation loop of
`auto_fix_option_formatting`: `text = text[:-1].strip()`. -/
def dropTrailStep (l : List Char) : List Char := pyStripL l.dropLast

/-- Fuel-indexed iteration of `dropTrailStep` (each firing iteration
strictly shortens the list, so `l.length` fuel always reaches the loop's
fixpoint). -/
def dropTrailPunctFuel : Nat → List Char → List Char
  | 0, l => l
  | n + 1, l =>
    match l.getLast? with
    | none => l
    | some c =>
      if c = '.' ∨ c = '?' ∨ c = '!' then dropTrailPunctFuel n (dropTrailStep l)
      else l

/-- The `while text and text[-1] in '.?!': text = text[:-1].strip()` loop of
`auto_fix_option_formatting`. -/
def dropTrailPunct (l : List Char) : List Char := dropTrailPunctFuel l.length l

/-- Transcription of `auto_fix_option_formatting` from `src/utils.py` (the spec's
`normalize_option`). -/
def auto_fix_option_formatting (s : String) : String :=
  if s = "" then s
  else
    let t1 := collapseWS (pyStripL s.data)
    let t2 := capitalizeHead t1
    let t3 := dropTrailPunct t2
    let t4 := rmSpaceBefore isPunct3 t3
    let t5 := addSpaceAfter isPunct3 t4
    String.mk t5

/-! ### Question validation (`src/utils.py`) -/

/-- A Python dict of MCQ options: an insertion-ordered association list
(label → text), keys unique as in a dict. -/
abbrev Options := List (String × String)

/-- Python `key in options` (dict key membership). -/
def optHasKey (o : Options) (k : String) : Bool := o.any (fun kv => kv.1 = k)

/-- Python `options.values()` in insertion order. -/
def optValues (o : Options) : List String := o.map (·.2)

/-- Transcription of `validate_question_length` from `src/utils.py`.  The source first tests
`not question_text or not question_text.strip()`; the first disjunct is
subsumed by the second.  Error strings are abbreviated (the source
interpolates the offending lengths); no claim depends on message text. -/
def validate_question_length (question_text : String) (min_length max_length : Nat) :
    Bool × String :=
  if pyStrip question_text = "" then (false, "Question text cannot be empty")
  else
    let text_length := (pyStrip question_text).length
    if text_length < min_length then (false, "Question is too short")
    else if text_length > max_length then (false, "Question is too long")
    else (true, "")

/-- Transcription of `validate_mcq_options` from `src/utils.py`.  The source runs one loop
for emptiness, one for length bounds (its `< 1` arm is unreachable after
the emptiness loop) and a set-cardinality comparison for duplicates; each
loop's boolean outcome is an `any` over the dict entries. -/
def validate_mcq_options (options : Options) : Bool × String :=
  if options.isEmpty then (false, "Options cannot be empty")
  else
    let required := ["A", "B", "C", "D"]
    let missing := required.filter (fun k => ¬ optHasKey options k)
    if ¬ missing.isEmpty then (false, "Missing options")
    else if options.any (fun kv => pyStrip kv.2 = "") then
      (false, "Option cannot be empty")
    else if options.any (fun kv => (pyStrip kv.2).length > 300) then
      (false, "Option is too long")
    else
      let option_values := (optValues options).map (fun v => pyLower (pyStrip v))
      if option_values.dedup.length ≠ option_values.length then
        (false, "Options contain duplicates")
      else (true, "")

/-- Transcription of `validate_correct_answer` from `src/utils.py`.  The argument is typed
`str` in the source; its `valid_answers` list also holds the Python
booleans `True`/`False`, which no string equals, so the string-input
behaviour is exactly membership in the four spellings below. -/
def validate_correct_answer (correct_answer : String) (question_type : String)
    (options : Option Options) : Bool × String :=
  if correct_answer = "" then (false, "Correct answer cannot be empty")
  else if question_type = "mcq" then
    if correct_answer ∉ (["A", "B", "C", "D"] : List String) then
      (false, "Invalid MCQ answer")
    else
      match options with
      | some o =>
        if ¬ o.isEmpty ∧ ¬ optHasKey o correct_answer then
          (false, "Correct answer not found in options")
        else (true, "")
      | none => (true, "")
  else if question_type = "true_false" then
    if correct_answer ∉ (["true", "false", "True", "False"] : List String) then
      (false, "Invalid True or False answer")
    else (true, "")
  else (true, "")

/-- The scan of `check_duplicate_question`: return the first corpus entry
whose similarity with the normalized candidate reaches the threshold. -/
def check_duplicate_loop (ratio : String → String → ℚ) (qn : String)
    (existing : List String) (threshold : ℚ) : Bool × Option String :=
  match existing with
  | [] => (false, none)
  | e :: rest =>
    if threshold ≤ ratio qn (pyLower (pyStrip e)) then (true, some e)
    else check_duplicate_loop ratio qn rest threshold

/-- Transcription of `check_duplicate_question` from `src/utils.py`, parameterized by the
similarity primitive (`difflib.SequenceMatcher(None,·,·).ratio()` in the
source). -/
def check_duplicate_question (ratio : String → String → ℚ) (question_text : String)
    (existing_questions : List String) (threshold : ℚ) : Bool × Option String :=
  if existing_questions.isEmpty then (false, none)
  else check_duplicate_loop ratio (pyLower (pyStrip question_text))
    existing_questions threshold

/-- The `complexity_keywords` list of `calculate_difficulty_score`. -/
def complexity_keywords : List String :=
  ["analyze", "evaluate", "compare", "contrast", "explain why",
   "justify", "critique", "synthesize", "infer", "predict",
   "how would", "what if", "why do you think"]

/-- The `simple_keywords` list of `calculate_difficulty_score`. -/
def simple_keywords : List String :=
  ["what is", "who is", "when did", "where is", "define", "list"]

/-- Bool test that `a` starts with `b`-prefix `l₁`. -/
def startsWithL : List Char → List Char → Bool
  | [], _ => true
  | _ :: _, [] => false
  | a :: as, b :: bs => a = b && startsWithL as bs

/-- Bool test that `needle` occurs contiguously inside `hay`. -/
def hasInfixL (needle : List Char) : List Char → Bool
  | [] => needle.isEmpty
  | c :: rest => startsWithL needle (c :: rest) || hasInfixL needle rest

/-- Python `needle in hay` (substring containment). -/
def containsSub (needle hay : String) : Bool := hasInfixL needle.data hay.data

/-- All pairwise similarities `ratio vals[i] vals[j]` for `i < j`, in the
double-loop order of the source. -/
def pairSims (ratio : String → String → ℚ) : List String → List ℚ
  | [] => []
  | v :: rest => rest.map (fun w => ratio v w) ++ pairSims ratio rest

/-- The final threshold mapping shared by the source (`if score <= 0:
return 'easy' / elif score <= 3: 'medium' / else: 'hard'`) and the spec's
wording: score ≤ 0 → easy; 1–3 → medium; ≥ 4 → hard. -/
def difficulty_tier (s : ℤ) : String :=
  if s ≤ 0 then "easy" else if s ≤ 3 then "medium" else "hard"

/-- Transcription of `calculate_difficulty_score` from `src/utils.py`: the source mutates
one integer `score` through a sequence of guarded `score += …` /
`score -= …` statements; each statement is transcribed as adding its
guarded amount (`if cond: score += k  ≡  score := score + (if cond then k
else 0)`), in the source's order; `ratio` is the similarity primitive. -/
def calculate_difficulty_score (ratio : String → String → ℚ)
    (question_text : String) (options : Option Options) : String :=
  let score0 : ℤ := 0
  let score1 := score0 +
    (if (pyStrip question_text).length > 150 then 2
     else if (pyStrip question_text).length > 80 then 1
     else 0)
  let score2 := score1 +
    (if complexity_keywords.any (fun kw => containsSub kw (pyLower question_text))
     then 1 else 0)
  let score3 := score2 +
    (if simple_keywords.any (fun kw => containsSub kw (pyLower question_text))
     then -1 else 0)
  let score4 := score3 +
    (match options with
     | none => 0
     | some o =>
       if o.isEmpty then 0
       else
         (if (((optValues o).map fun v => (v.length : ℚ)).sum) / (optValues o).length > 100
          then 2
          else if (((optValues o).map fun v => (v.length : ℚ)).sum) / (optValues o).length > 50
          then 1
          else 0) +
         (if ¬ (pairSims ratio ((optValues o).map pyLower)).isEmpty ∧
              (pairSims ratio ((optValues o).map pyLower)).sum /
                (pairSims ratio ((optValues o).map pyLower)).length > 6/10
          then 2 else 0))
  difficulty_tier score4

/-! #### Spec-side description of the difficulty estimator

These definitions transcribe the specification's wording of §4.3 (additive
integer points, then a threshold mapping); the refinement theorem for the
estimator compares them with `calculate_difficulty_score`, which
transcribes the source's sequential accumulation. -/

/-- Spec §4.3: +2 if question length > 150 chars, else +1 if > 80 (only
the higher bucket applies). -/
def length_points (q : String) : ℤ :=
  if (pyStrip q).length > 150 then 2
  else if (pyStrip q).length > 80 then 1
  else 0

/-- Spec §4.3: +1 if the question contains any complexity keyword. -/
def complexity_points (q : String) : ℤ :=
  if complexity_keywords.any (fun kw => containsSub kw (pyLower q)) then 1 else 0

/-- Spec §4.3: −1 if the question contains any simple-recall keyword. -/
def recall_points (q : String) : ℤ :=
  if simple_keywords.any (fun kw => containsSub kw (pyLower q)) then -1 else 0

/-- Spec §4.3: +2 if the average option length exceeds 100 chars, else +1
if it exceeds 50 (mutually exclusive). -/
def option_length_points (o : Options) : ℤ :=
  if (((optValues o).map fun v => (v.length : ℚ)).sum) / (optValues o).length > 100
  then 2
  else if (((optValues o).map fun v => (v.length : ℚ)).sum) / (optValues o).length > 50
  then 1
  else 0

/-- Spec §4.3: +2 when the average pairwise similarity of the lower-cased
option texts exceeds 0.6 (provided at least one pair exists). -/
def option_similarity_points (ratio : String → String → ℚ) (o : Options) : ℤ :=
  if ¬ (pairSims ratio ((optValues o).map pyLower)).isEmpty ∧
      (pairSims ratio ((optValues o).map pyLower)).sum /
        (pairSims ratio ((optValues o).map pyLower)).length > 6/10
  then 2 else 0

/-- Spec §4.3: the total additive score.  Options contribute only when
given (Python truthiness: present and non-empty). -/
def difficulty_points (ratio : String → String → ℚ) (q : String)
    (opts : Option Options) : ℤ :=
  length_points q + complexity_points q + recall_points q +
    (match opts with
     | some o =>
       if o.isEmpty then 0
       else option_length_points o + option_similarity_points ratio o
     | none => 0)

/-- The spec's description of the difficulty estimator, assembled from the
clause functions above. -/
def difficulty_spec (ratio : String → String → ℚ) (q : String)
    (opts : Option Options) : String :=
  difficulty_tier (difficulty_points ratio q opts)

/-- The `fixed_data` record of `validate_question_complete` (no
`correct_answer` field exists in the source's record). -/
structure FixedData where
  question_text : String
  options : Option Options
  difficulty : String
deriving Repr, DecidableEq

/-- Python truthiness of an `Optional[Dict]`: present and non-empty. -/
def optTruthy : Option Options → Bool
  | some o => !o.isEmpty
  | none => false

/-- The auto-fixing of option texts inside `validate_question_complete`
(`if auto_fix: if options and question_type == 'mcq': ...`). -/
def fixed_mcq_options (auto_fix : Bool) (question_type : String) (o : Options) :
    Options :=
  if auto_fix ∧ question_type = "mcq" ∧ ¬ o.isEmpty
  then o.map (fun kv => (kv.1, auto_fix_option_formatting kv.2))
  else o

/-- Transcription of `validate_question_complete` from `src/utils.py`: auto-fix, length
check, type-specific checks, duplicate check, difficulty — accumulating
errors; valid iff no error. -/
def validate_question_complete (ratio : String → String → ℚ)
    (question_text question_type : String) (correct_answer : Option String)
    (options : Option Options) (existing_questions : Option (List String))
    (auto_fix : Bool) : Bool × List String × FixedData :=
  let fixed_text :=
    if auto_fix then auto_fix_question_formatting question_text else question_text
  let fixed_options := options.map (fixed_mcq_options auto_fix question_type)
  let lengthErrs :=
    let r := validate_question_length fixed_text 20 500
    if r.1 then [] else [r.2]
  let typeErrs :=
    if question_type = "mcq" then
      match options with
      | none => ["MCQ questions require options"]
      | some o =>
        if o.isEmpty then ["MCQ questions require options"]
        else
          let fo := fixed_mcq_options auto_fix question_type o
          let r := validate_mcq_options fo
          let e1 := if r.1 then [] else [r.2]
          let e2 :=
            match correct_answer with
            | some ca =>
              if ca ≠ "" then
                let r2 := validate_correct_answer ca question_type (some fo)
                if r2.1 then [] else [r2.2]
              else []
            | none => []
          e1 ++ e2
    else if question_type = "true_false" then
      match correct_answer with
      | some ca =>
        if ca ≠ "" then
          let r := validate_correct_answer ca question_type none
          if r.1 then [] else [r.2]
        else []
      | none => []
    else []
  let dupErrs :=
    match existing_questions with
    | some ex =>
      if ¬ ex.isEmpty then
        let d := check_duplicate_question ratio fixed_text ex (17/20)
        if d.1 then ["Question is too similar to existing question"] else []
      else []
    | none => []
  let difficulty :=
    if question_type = "mcq" ∧ optTruthy fixed_options
    then calculate_difficulty_score ratio fixed_text fixed_options
    else calculate_difficulty_score ratio fixed_text none
  let errors := lengthErrs ++ typeErrs ++ dupErrs
  (errors.isEmpty, errors, ⟨fixed_text, fixed_options, difficulty⟩)

/-! ### Exam submission (`submit_exam` in `src/app.py`)

Times are rationals (seconds for clock instants, minutes for the exam
duration, matching the source's `total_seconds() / 60` conversion).  The
AI grader `grade_short_answer` is an external collaborator modelled as a
function returning `Except Unit (Bool × ℚ × String)`; `Except.error`
models the call raising an exception. -/

/-- The fields of the `Question` model relevant to scoring. -/
structure Question where
  id : Nat
  question_type : String
  correct_answer : String
  model_answer : String
  key_points : Option String
deriving Repr, DecidableEq

/-- The fields of the `Exam` model relevant to submission.  `completed_at`
is `none` while the exam is in progress. -/
structure Exam where
  id : Nat
  score : Option ℚ
  total_questions : Nat
  completed_at : Option ℚ
deriving Repr, DecidableEq

/-- Transcription of `Exam.is_completed` from `src/models.py`. -/
def Exam.is_completed (e : Exam) : Bool := e.completed_at.isSome

/-- One `ExamQuestion` row as created during submission. -/
structure ExamQuestion where
  exam_id : Nat
  question_id : Nat
  user_answer : Option String
  is_correct : Bool
  time_spent : ℚ
deriving Repr, DecidableEq

/-- The AI grading adapter: `(user_answer, model_answer, key_points) ↦
(is_correct, score, feedback)`, or an exception. -/
abbrev Grader := String → String → Option String → Except Unit (Bool × ℚ × String)

/-- Python truthiness of the stored session answer (`if user_answer:`
— `None` and the empty string count as unanswered). -/
def answeredB : Option String → Bool
  | some s => s ≠ ""
  | none => false

/-- Correctness of one question's answer, exactly as decided inside the
`submit_exam` loop: `true_false` compares both sides lower-cased,
`short_answer` delegates to the grader and falls back to `false` on an
exception, every other type (the `else:  # MCQ` branch) compares exactly;
a falsy answer is incorrect. -/
def gradeOne (grader : Grader) (q : Question) (ua : Option String) : Bool :=
  match ua with
  | none => false
  | some a =>
    if a = "" then false
    else if q.question_type = "true_false" then pyLower a = pyLower q.correct_answer
    else if q.question_type = "short_answer" then
      match grader a q.model_answer q.key_points with
      | .ok r => r.1
      | .error _ => false
    else a = q.correct_answer

/-- The `ExamQuestion` row built for one question id (skipped — `none` —
when the id is absent from `questions_dict`, as with the source's
`continue`). -/
def rowOf (grader : Grader) (examId : Nat) (lookup : Nat → Option Question)
    (answers : Nat → Option String) (times : Nat → ℚ) (qid : Nat) :
    Option ExamQuestion :=
  (lookup qid).map fun q =>
    ⟨examId, qid, answers qid, gradeOne grader q (answers qid), times qid⟩

/-- The scoring loop of `submit_exam`: returns
`(correct_count, unanswered_count, rows)` for the selected ids in order. -/
def scoreLoop (grader : Grader) (examId : Nat) (lookup : Nat → Option Question)
    (answers : Nat → Option String) (times : Nat → ℚ) :
    List Nat → Nat × Nat × List ExamQuestion
  | [] => (0, 0, [])
  | qid :: rest =>
    let acc := scoreLoop grader examId lookup answers times rest
    match lookup qid with
    | none => acc
    | some q =>
      let ua := answers qid
      let ic := gradeOne grader q ua
      ((if ic then 1 else 0) + acc.1,
       (if answeredB ua then 0 else 1) + acc.2.1,
       ⟨examId, qid, ua, ic, times qid⟩ :: acc.2.2)

/-- Where `submit_exam` redirects. -/
inductive Redirect where
  | examResults (exam_id : Nat)
  | examPage
  | startExam
deriving Repr, DecidableEq

/-- The observable outcome of one `submit_exam` call: the exam row after
the call, the `ExamQuestion` rows the call persisted, the redirect, and
the reported tallies (zero outside the successful-scoring path). -/
structure SubmitOutcome where
  exam : Exam
  new_rows : List ExamQuestion
  redirect : Redirect
  correct_count : Nat
  unanswered_count : Nat
deriving Repr, DecidableEq

/-- Transcription of `submit_exam` from `src/app.py`.  `persistOk` models whether the
database commit of the scoring transaction succeeds; on failure the
transaction is rolled back (no rows persist) and the handler either
force-completes the exam with score 0 (time expired) or leaves it
untouched so the learner can retry.  `start_time`/`now` are clock
instants in seconds, `exam_duration` is in minutes. -/
def submit_exam (grader : Grader) (exam : Exam) (question_ids : List Nat)
    (lookup : Nat → Option Question) (answers : Nat → Option String)
    (times : Nat → ℚ) (persistOk : Bool) (start_time exam_duration now : ℚ) :
    SubmitOutcome :=
  if exam.is_completed then
    { exam := exam, new_rows := [], redirect := .examResults exam.id,
      correct_count := 0, unanswered_count := 0 }
  else if persistOk then
    let r := scoreLoop grader exam.id lookup answers times question_ids
    let score : ℚ :=
      if question_ids.isEmpty then 0
      else (r.1 : ℚ) / (question_ids.length : ℚ) * 100
    { exam := { exam with score := some score, completed_at := some now },
      new_rows := r.2.2, redirect := .examResults exam.id,
      correct_count := r.1, unanswered_count := r.2.1 }
  else
    if ¬ exam.is_completed ∧ (now - start_time) / 60 ≥ exam_duration then
      { exam := { exam with score := some 0, completed_at := some now },
        new_rows := [], redirect := .examPage,
        correct_count := 0, unanswered_count := 0 }
    else
      { exam := exam, new_rows := [], redirect := .startExam,
        correct_count := 0, unanswered_count := 0 }

/-- Per-question correctness as a predicate on question ids (an
unresolved id contributes `false`, as the loop's `continue` skips it). -/
def correctB (grader : Grader) (lookup : Nat → Option Question)
    (answers : Nat → Option String) (qid : Nat) : Bool :=
  match lookup qid with
  | some q => gradeOne grader q (answers qid)
  | none => false

/-- Resolved-but-left-blank as a predicate on question ids. -/
def blankB (lookup : Nat → Option Question) (answers : Nat → Option String)
    (qid : Nat) : Bool :=
  (lookup qid).isSome && !answeredB (answers qid)

/-- Scenario data for the C3 witness: a well-formed four-option mapping. -/
def w3opts : Options :=
  [("A", "Paris"), ("B", "London"), ("C", "Berlin"), ("D", "Rome")]

/-- Scenario data for the C8 witness: a grader that always raises. -/
def w8grader : Grader := fun _ _ _ => Except.error ()

/-- Scenario data for the C8 witness: one short-answer and one mcq
question. -/
def w8lookup : Nat → Option Question := fun n =>
  if n = 10 then some ⟨10, "short_answer", "", "model answer", none⟩
  else if n = 11 then some ⟨11, "mcq", "A", "", none⟩
  else none

/-- Scenario data for the C8 witness: answers for both questions. -/
def w8answers : Nat → Option String := fun n =>
  if n = 10 then some "attempted" else if n = 11 then some "A" else none

/-- Scenario data for the C1 witness (Scenario E): ten mcq questions with
correct answer "A". -/
def w1lookup : Nat → Option Question := fun n =>
  if 1 ≤ n ∧ n ≤ 10 then some ⟨n, "mcq", "A", "", none⟩ else none

/-- Scenario data for the C1 witness: questions 1–7 answered correctly,
8–10 left blank. -/
def w1answers : Nat → Option String := fun n =>
  if 1 ≤ n ∧ n ≤ 7 then some "A" else none

/-! ### Theorems -/

/-- The source's sequential accumulation computes exactly the spec's
additive score and threshold mapping. -/
theorem calculate_difficulty_eq_spec (ratio : String → String → ℚ)
    (q : String) (opts : Option Options) :
    calculate_difficulty_score ratio q opts = difficulty_spec ratio q opts := by
  unfold calculate_difficulty_score difficulty_spec difficulty_points
    length_points complexity_points recall_points option_length_points
    option_similarity_points
  dsimp only
  apply congrArg difficulty_tier
  cases opts with
  | none => dsimp only; ring
  | some o => dsimp only; ring

/-! ### Claim theorems -/

/-- C7: the difficulty estimator is exactly the stated additive integer
heuristic — +2 for question length > 150 (else +1 if > 80), +1 for a
complexity keyword, −1 for a simple-recall keyword, option-length and
option-similarity bonuses when options are given, with final tier easy
(≤ 0) / medium (1–3) / hard (≥ 4).  Determinism under identical inputs is
immediate because the estimator is a pure function of its arguments. -/
theorem difficulty_estimator_matches_spec (ratio : String → String → ℚ)
    (q : String) (opts : Option Options) :
    calculate_difficulty_score ratio q opts = difficulty_spec ratio q opts :=
  calculate_difficulty_eq_spec ratio q opts

/-- C10: with `options = None` the estimator can award at most
2 (length) + 1 (complexity keyword) = 3 points, so the tier is never
`hard`. -/
theorem difficulty_without_options_never_hard (ratio : String → String → ℚ)
    (q : String) :
    calculate_difficulty_score ratio q none ≠ "hard" := by
  rw [calculate_difficulty_eq_spec]
  unfold difficulty_spec difficulty_points difficulty_tier
  have h1 : length_points q ≤ 2 := by
    unfold length_points
    split_ifs <;> omega
  have h2 : complexity_points q ≤ 1 := by
    unfold complexity_points
    split_ifs <;> omega
  have h3 : recall_points q ≤ 0 := by
    unfold recall_points
    split_ifs <;> omega
  dsimp only
  split_ifs with ha hb
  · decide
  · decide
  · exfalso
    omega

/-- C4 counterexample: the claim says any case variant of "true"/"false"
is accepted, in particular "TRUE"; the source's `valid_answers` list holds
only the spellings 'true', 'false', 'True', 'False', so "TRUE" is
rejected. -/
theorem tf_upper_spelling_rejected :
    (validate_correct_answer "TRUE" "true_false" none).1 = false := by decide

/-- C4 (amended): for a `true_false` candidate the validator accepts
`correct_answer` iff it is exactly one of the four spellings 'true',
'false', 'True', 'False' (not an arbitrary case variant), and it performs
no lowercase normalization: the returned fixed record carries no
correct-answer field at all, so it is independent of the submitted
`correct_answer`. -/
theorem tf_correct_answer_exact_spellings :
    (∀ s : String, (validate_correct_answer s "true_false" none).1 = true ↔
      s ∈ (["true", "false", "True", "False"] : List String)) ∧
    (∀ (ratio : String → String → ℚ) (text : String) (ca ca' : Option String)
        (ex : Option (List String)) (af : Bool),
      (validate_question_complete ratio text "true_false" ca none ex af).2.2 =
        (validate_question_complete ratio text "true_false" ca' none ex af).2.2) := by
  constructor
  · intro s
    unfold validate_correct_answer
    by_cases h : s = ""
    · subst h
      simp
    · by_cases hm : s ∈ (["true", "false", "True", "False"] : List String)
      · simp [h, hm]
      · simp [h, hm]
  · intro ratio text ca ca' ex af
    rfl

/-- Everything `validate_mcq_options` checks, read back from a passing
run: the four labels are present, every option value (of every key,
extras included) is non-blank and at most 300 characters after trimming,
and the trimmed lower-cased values are pairwise distinct. -/
theorem validate_mcq_options_true (o : Options)
    (h : (validate_mcq_options o).1 = true) :
    ¬ o.isEmpty ∧
    (optHasKey o "A" ∧ optHasKey o "B" ∧ optHasKey o "C" ∧ optHasKey o "D") ∧
    (∀ kv ∈ o, pyStrip kv.2 ≠ "" ∧ (pyStrip kv.2).length ≤ 300) ∧
    (((optValues o).map fun v => pyLower (pyStrip v)).Nodup) := by
  unfold validate_mcq_options at h
  dsimp only at h
  split_ifs at h with h1 h2 h3 h4 h5
  have hkeys : ∀ k ∈ ["A", "B", "C", "D"], optHasKey o k := by
    intro k hk
    by_contra hnk
    have hmem : k ∈ (["A", "B", "C", "D"].filter fun k => ¬ optHasKey o k) :=
      List.mem_filter.mpr ⟨hk, by simpa using hnk⟩
    rw [List.isEmpty_iff.mp h2] at hmem
    simp at hmem
  have hvals : ∀ kv ∈ o, pyStrip kv.2 ≠ "" ∧ (pyStrip kv.2).length ≤ 300 := by
    intro kv hkv
    constructor
    · intro hblank
      exact h3 (List.any_eq_true.mpr ⟨kv, hkv, by simpa using hblank⟩)
    · by_contra hlong
      exact h4 (List.any_eq_true.mpr ⟨kv, hkv, by simpa using not_le.mp hlong⟩)
  have hnodup : (((optValues o).map fun v => pyLower (pyStrip v))).Nodup := by
    have hlen : (((optValues o).map fun v => pyLower (pyStrip v))).dedup.length
        = (((optValues o).map fun v => pyLower (pyStrip v))).length :=
      not_ne_iff.mp h5
    exact List.dedup_eq_self.mp ((List.dedup_sublist _).eq_of_length hlen)
  exact ⟨h1, ⟨hkeys "A" (by simp), hkeys "B" (by simp), hkeys "C" (by simp),
    hkeys "D" (by simp)⟩, hvals, hnodup⟩

/-- Everything `validate_correct_answer` checks for an MCQ answer against
a non-empty option dict, read back from a passing run. -/
theorem validate_correct_answer_mcq_true (a : String) (fo : Options)
    (hne : ¬ fo.isEmpty)
    (h : (validate_correct_answer a "mcq" (some fo)).1 = true) :
    a ∈ (["A", "B", "C", "D"] : List String) ∧ optHasKey fo a := by
  unfold validate_correct_answer at h
  dsimp only at h
  split_ifs at h with h1 h2 h3 h4
  · rw [not_and] at h4
    have hkey := h4 hne
    rw [not_not] at hkey
    exact ⟨h3, hkey⟩
  · exact absurd rfl h2
  · exact absurd rfl h2

/-- C3 counterexample: an mcq candidate with a fifth option key "E" and
with no `correct_answer` at all passes validation (`is_valid = True`, no
errors), though the claim requires exactly the keys A–D and a present
correct answer. -/
theorem mcq_validation_counterexample :
    (validate_question_complete (fun _ _ => 0)
      "What is the capital city of France today" "mcq" none
      (some [("A", "Alpha"), ("B", "Beta"), ("C", "Gamma"), ("D", "Delta"),
             ("E", "Epsilon")])
      none true).1 = true := by decide

/-- C3 (amended): for an mcq candidate with a non-empty options dict,
validation succeeds only if the (possibly auto-fixed) options contain at
least the labels A, B, C, D — extra keys are permitted — with every value
non-blank and at most 300 characters after trimming and no two values
equal case-insensitively after trimming, and, whenever a non-empty
`correct_answer` is supplied, it is one of A–D and a key of those
options; a missing `correct_answer` is not rejected. -/
theorem mcq_validation_necessary_conditions (ratio : String → String → ℚ)
    (text : String) (ca : Option String) (o : Options)
    (ex : Option (List String)) (af : Bool)
    (hne : ¬ o.isEmpty)
    (hvalid : (validate_question_complete ratio text "mcq" ca (some o) ex af).1
        = true) :
    (optHasKey (fixed_mcq_options af "mcq" o) "A" ∧
     optHasKey (fixed_mcq_options af "mcq" o) "B" ∧
     optHasKey (fixed_mcq_options af "mcq" o) "C" ∧
     optHasKey (fixed_mcq_options af "mcq" o) "D") ∧
    (∀ kv ∈ fixed_mcq_options af "mcq" o,
      pyStrip kv.2 ≠ "" ∧ (pyStrip kv.2).length ≤ 300) ∧
    (((optValues (fixed_mcq_options af "mcq" o)).map
        fun v => pyLower (pyStrip v)).Nodup) ∧
    (∀ a, ca = some a → a ≠ "" →
      a ∈ (["A", "B", "C", "D"] : List String) ∧
      optHasKey (fixed_mcq_options af "mcq" o) a) := by
  have hone : ¬ o = [] := by simpa using hne
  unfold validate_question_complete at hvalid
  simp only [List.isEmpty_eq_true, List.append_eq_nil, if_true] at hvalid
  have htype := hvalid.1.2
  rw [if_neg hone, List.append_eq_nil] at htype
  have he1 := htype.1
  have he2 := htype.2
  have hvmo : (validate_mcq_options (fixed_mcq_options af "mcq" o)).1 = true := by
    by_contra hb
    rw [if_neg hb] at he1
    simp at he1
  have base := validate_mcq_options_true _ hvmo
  refine ⟨base.2.1, base.2.2.1, base.2.2.2, ?_⟩
  intro a ha hane
  rw [ha] at he2
  dsimp only at he2
  rw [if_pos hane] at he2
  have hvca : (validate_correct_answer a "mcq"
      (some (fixed_mcq_options af "mcq" o))).1 = true := by
    by_contra hb
    rw [if_neg hb] at he2
    simp at he2
  exact validate_correct_answer_mcq_true a _ base.1 hvca

/-- Concrete instance of the amended C3 necessary conditions: a valid
four-option mcq candidate indeed carries the keys A and D. -/
theorem mcq_validation_necessary_conditions_witness :
    optHasKey (fixed_mcq_options false "mcq" w3opts) "A" ∧
    optHasKey (fixed_mcq_options false "mcq" w3opts) "D" := by
  have h := mcq_validation_necessary_conditions (fun _ _ => 0)
      "What is the capital of France?" (some "A") w3opts none false
      (by decide) (by decide)
  exact ⟨h.1.1, h.1.2.2.2⟩

/-- C2: submitting an already-completed exam session is a no-op — no
scoring runs, the stored score is unchanged, no `ExamQuestion` rows are
created, and the call redirects to the existing result page. -/
theorem submit_completed_is_noop (grader : Grader) (exam : Exam)
    (ids : List Nat) (lookup : Nat → Option Question)
    (answers : Nat → Option String) (times : Nat → ℚ) (persistOk : Bool)
    (st dur now : ℚ) (h : exam.is_completed = true) :
    submit_exam grader exam ids lookup answers times persistOk st dur now =
      { exam := exam, new_rows := [], redirect := .examResults exam.id,
        correct_count := 0, unanswered_count := 0 } := by
  unfold submit_exam
  simp [h]

/-- Witness for C2 at a concrete completed session. -/
theorem submit_completed_is_noop_witness :
    (Exam.is_completed ⟨7, some 80, 10, some 1000⟩ = true) ∧
    submit_exam (fun _ _ _ => Except.error ()) ⟨7, some 80, 10, some 1000⟩
        [1, 2] (fun _ => none) (fun _ => none) (fun _ => 0) true 0 30 2000 =
      { exam := ⟨7, some 80, 10, some 1000⟩, new_rows := [],
        redirect := .examResults 7, correct_count := 0, unanswered_count := 0 } :=
  ⟨rfl, submit_completed_is_noop _ _ _ _ _ _ _ _ _ _ rfl⟩

/-- C9: when the persistence step of submit fails, a session whose time
has expired (elapsed minutes ≥ configured duration) is force-completed
with score 0 and no persisted answer rows, while a session whose time has
not elapsed is left entirely unchanged so the learner can retry. -/
theorem submit_persist_failure_paths (grader : Grader) (exam : Exam)
    (ids : List Nat) (lookup : Nat → Option Question)
    (answers : Nat → Option String) (times : Nat → ℚ) (st dur now : ℚ)
    (h : exam.completed_at = none) :
    ((now - st) / 60 ≥ dur →
      (submit_exam grader exam ids lookup answers times false st dur now).exam.completed_at
          = some now ∧
      (submit_exam grader exam ids lookup answers times false st dur now).exam.score
          = some 0 ∧
      (submit_exam grader exam ids lookup answers times false st dur now).new_rows
          = []) ∧
    ((now - st) / 60 < dur →
      (submit_exam grader exam ids lookup answers times false st dur now).exam = exam ∧
      (submit_exam grader exam ids lookup answers times false st dur now).new_rows
          = []) := by
  unfold submit_exam Exam.is_completed
  rw [h]
  constructor
  · intro hge
    simp [hge]
  · intro hlt
    simp [not_le.mpr hlt]

/-- The duplicate scan returns `(true, some e)` exactly when `e` is the
first corpus entry (in the given order) whose similarity with the
normalized candidate reaches the threshold. -/
theorem check_duplicate_loop_true_iff (ratio : String → String → ℚ)
    (qn : String) (θ : ℚ) :
    ∀ (es : List String) (e : String),
      check_duplicate_loop ratio qn es θ = (true, some e) ↔
        ∃ pre suf, es = pre ++ e :: suf ∧
          θ ≤ ratio qn (pyLower (pyStrip e)) ∧
          ∀ p ∈ pre, ratio qn (pyLower (pyStrip p)) < θ := by
  intro es
  induction es with
  | nil =>
    intro e
    constructor
    · intro h
      simp [check_duplicate_loop] at h
    · rintro ⟨pre, suf, habs, -, -⟩
      exact absurd habs (by simp)
  | cons a rest ih =>
    intro e
    by_cases hc : θ ≤ ratio qn (pyLower (pyStrip a))
    · constructor
      · intro h
        simp only [check_duplicate_loop, if_pos hc] at h
        have ha : a = e := by
          have h2 := congrArg Prod.snd h
          simpa using h2
        exact ⟨[], rest, by simp [ha], ha ▸ hc, by simp⟩
      · rintro ⟨pre, suf, hsplit, hthr, hlt⟩
        cases pre with
        | nil =>
          simp only [List.nil_append, List.cons.injEq] at hsplit
          obtain ⟨hae, hrs⟩ := hsplit
          subst hae
          simp [check_duplicate_loop, if_pos hc]
        | cons p pre' =>
          simp only [List.cons_append, List.cons.injEq] at hsplit
          obtain ⟨hap, -⟩ := hsplit
          have hpl := hlt p (by simp)
          rw [← hap] at hpl
          exact absurd hc (not_le.mpr hpl)
    · constructor
      · intro h
        simp only [check_duplicate_loop, if_neg hc] at h
        obtain ⟨pre, suf, hsplit, hthr, hlt⟩ := (ih e).mp h
        refine ⟨a :: pre, suf, by simp [hsplit], hthr, ?_⟩
        intro p hp
        rcases List.mem_cons.mp hp with h1 | h2
        · rw [h1]
          exact not_le.mp hc
        · exact hlt p h2
      · rintro ⟨pre, suf, hsplit, hthr, hlt⟩
        cases pre with
        | nil =>
          simp only [List.nil_append, List.cons.injEq] at hsplit
          obtain ⟨hae, -⟩ := hsplit
          rw [← hae] at hthr
          exact absurd hthr hc
        | cons p pre' =>
          simp only [List.cons_append, List.cons.injEq] at hsplit
          obtain ⟨hap, hrest⟩ := hsplit
          simp only [check_duplicate_loop, if_neg hc]
          exact (ih e).mpr ⟨pre', suf, hrest, hthr,
            fun p' hp' => hlt p' (by simp [hp'])⟩

/-- If every corpus entry stays below the threshold, the scan reports no
duplicate. -/
theorem check_duplicate_loop_all_below (ratio : String → String → ℚ)
    (qn : String) (θ : ℚ) :
    ∀ es, (∀ p ∈ es, ratio qn (pyLower (pyStrip p)) < θ) →
      check_duplicate_loop ratio qn es θ = (false, none) := by
  intro es
  induction es with
  | nil => intro _; rfl
  | cons a rest ih =>
    intro h
    have ha := h a (by simp)
    simp only [check_duplicate_loop, if_neg (not_le.mpr ha)]
    exact ih (fun p hp => h p (by simp [hp]))

/-- C6: `check_duplicate_question` lowercases and trims both sides and
returns `(True, e)` for the first corpus entry `e` (in the given order,
not the best match) whose similarity with the candidate reaches the
threshold; it returns `(False, None)` on an empty corpus or when no entry
reaches the threshold; and — since identical strings have similarity 1 —
`is_duplicate(x, [x])` is `(True, x)` at the default threshold 0.85. -/
theorem duplicate_check_first_match (ratio : String → String → ℚ)
    (hratio : ∀ s, ratio s s = 1) :
    (∀ x θ, check_duplicate_question ratio x [] θ = (false, none)) ∧
    (∀ x es θ e, check_duplicate_question ratio x es θ = (true, some e) ↔
      ∃ pre suf, es = pre ++ e :: suf ∧
        θ ≤ ratio (pyLower (pyStrip x)) (pyLower (pyStrip e)) ∧
        ∀ p ∈ pre, ratio (pyLower (pyStrip x)) (pyLower (pyStrip p)) < θ) ∧
    (∀ x es θ, (∀ p ∈ es, ratio (pyLower (pyStrip x)) (pyLower (pyStrip p)) < θ) →
      check_duplicate_question ratio x es θ = (false, none)) ∧
    (∀ x, check_duplicate_question ratio x [x] (17/20) = (true, some x)) := by
  refine ⟨fun x θ => rfl, fun x es θ e => ?_, fun x es θ h => ?_, fun x => ?_⟩
  · cases es with
    | nil =>
      constructor
      · intro habs
        simp [check_duplicate_question] at habs
      · rintro ⟨pre, suf, habs, -, -⟩
        exact absurd habs (by simp)
    | cons a rest =>
      unfold check_duplicate_question
      simp only [List.isEmpty_cons, if_neg]
      exact check_duplicate_loop_true_iff ratio _ θ (a :: rest) e
  · cases es with
    | nil => rfl
    | cons a rest =>
      unfold check_duplicate_question
      simp only [List.isEmpty_cons, if_neg]
      exact check_duplicate_loop_all_below ratio _ θ (a :: rest) h
  · unfold check_duplicate_question
    simp only [List.isEmpty_cons, if_neg]
    simp only [check_duplicate_loop, hratio]
    norm_num

/-- Witness for C6: a concrete similarity function with ratio 1 on
identical strings, applied to a concrete corpus. -/
theorem duplicate_check_first_match_witness :
    check_duplicate_question (fun a b => if a = b then (1 : ℚ) else 0)
      "  What is Photosynthesis?  " ["  What is Photosynthesis?  "] (17/20)
      = (true, some "  What is Photosynthesis?  ") :=
  (duplicate_check_first_match _ (fun s => by simp)).2.2.2 _

theorem scoreLoop_rows (grader : Grader) (examId : Nat)
    (lookup : Nat → Option Question) (answers : Nat → Option String)
    (times : Nat → ℚ) :
    ∀ ids, (scoreLoop grader examId lookup answers times ids).2.2 =
      ids.filterMap (rowOf grader examId lookup answers times) := by
  intro ids
  induction ids with
  | nil => rfl
  | cons qid rest ih =>
    cases hl : lookup qid with
    | none => simp [scoreLoop, hl, List.filterMap_cons, rowOf, ih]
    | some q => simp [scoreLoop, hl, List.filterMap_cons, rowOf, ih]

theorem scoreLoop_correct (grader : Grader) (examId : Nat)
    (lookup : Nat → Option Question) (answers : Nat → Option String)
    (times : Nat → ℚ) :
    ∀ ids, (scoreLoop grader examId lookup answers times ids).1 =
      ids.countP (correctB grader lookup answers) := by
  intro ids
  induction ids with
  | nil => rfl
  | cons qid rest ih =>
    cases hl : lookup qid with
    | none =>
      simp [scoreLoop, hl, List.countP_cons, correctB, ih]
    | some q =>
      simp only [scoreLoop, hl, List.countP_cons, correctB, ih]
      cases gradeOne grader q (answers qid) <;> simp [Nat.add_comm]

theorem scoreLoop_unanswered (grader : Grader) (examId : Nat)
    (lookup : Nat → Option Question) (answers : Nat → Option String)
    (times : Nat → ℚ) :
    ∀ ids, (scoreLoop grader examId lookup answers times ids).2.1 =
      ids.countP (blankB lookup answers) := by
  intro ids
  induction ids with
  | nil => rfl
  | cons qid rest ih =>
    cases hl : lookup qid with
    | none =>
      simp [scoreLoop, hl, List.countP_cons, blankB, ih]
    | some q =>
      simp only [scoreLoop, hl, List.countP_cons, blankB, ih]
      cases answeredB (answers qid) <;> simp [hl, Nat.add_comm]

/-- The successful-persistence branch of `submit_exam`, written out. -/
theorem submit_success_eq (grader : Grader) (exam : Exam) (ids : List Nat)
    (lookup : Nat → Option Question) (answers : Nat → Option String)
    (times : Nat → ℚ) (st dur now : ℚ)
    (hc : exam.completed_at = none) :
    submit_exam grader exam ids lookup answers times true st dur now =
      { exam := { exam with
          score := some (if ids.isEmpty then 0 else
            ((scoreLoop grader exam.id lookup answers times ids).1 : ℚ)
              / (ids.length : ℚ) * 100),
          completed_at := some now },
        new_rows := (scoreLoop grader exam.id lookup answers times ids).2.2,
        redirect := .examResults exam.id,
        correct_count := (scoreLoop grader exam.id lookup answers times ids).1,
        unanswered_count :=
          (scoreLoop grader exam.id lookup answers times ids).2.1 } := by
  unfold submit_exam Exam.is_completed
  rw [hc]
  rfl

theorem gradeOne_mcq (grader : Grader) (q : Question) (a : String)
    (hq : q.question_type = "mcq") (hane : a ≠ "") :
    (gradeOne grader q (some a) = true) ↔ a = q.correct_answer := by
  simp [gradeOne, hane, hq]

theorem gradeOne_tf (grader : Grader) (q : Question) (a : String)
    (hq : q.question_type = "true_false") (hane : a ≠ "") :
    (gradeOne grader q (some a) = true) ↔ pyLower a = pyLower q.correct_answer := by
  simp [gradeOne, hane, hq]

theorem gradeOne_blank (grader : Grader) (q : Question) (ua : Option String)
    (h : answeredB ua = false) : gradeOne grader q ua = false := by
  cases ua with
  | none => rfl
  | some s =>
    have hs : s = "" := by simpa [answeredB] using h
    subst hs
    simp [gradeOne]

theorem gradeOne_sa_error (grader : Grader) (q : Question) (a : String)
    (hq : q.question_type = "short_answer") (hane : a ≠ "")
    (hfail : grader a q.model_answer q.key_points = .error ()) :
    gradeOne grader q (some a) = false := by
  simp [gradeOne, hane, hq, hfail]

theorem countP_blankB_eq (lookup : Nat → Option Question)
    (answers : Nat → Option String) :
    ∀ ids : List Nat, (∀ qid ∈ ids, (lookup qid).isSome) →
      ids.countP (blankB lookup answers)
        = ids.countP (fun qid => !answeredB (answers qid)) := by
  intro ids
  induction ids with
  | nil => intro _; rfl
  | cons qid rest ih =>
    intro h
    have hq := h qid (by simp)
    simp only [List.countP_cons, blankB, hq]
    rw [ih (fun x hx => h x (by simp [hx]))]
    simp

theorem filterMap_rowOf_length (grader : Grader) (examId : Nat)
    (lookup : Nat → Option Question) (answers : Nat → Option String)
    (times : Nat → ℚ) :
    ∀ ids : List Nat, (∀ qid ∈ ids, (lookup qid).isSome) →
      (ids.filterMap (rowOf grader examId lookup answers times)).length
        = ids.length := by
  intro ids
  induction ids with
  | nil => intro _; rfl
  | cons qid rest ih =>
    intro h
    obtain ⟨q, hq⟩ := Option.isSome_iff_exists.mp (h qid (by simp))
    simp [List.filterMap_cons, rowOf, hq, ih (fun x hx => h x (by simp [hx]))]

/-- C1: on successful submission of a non-completed session, every
selected (resolved) question gets exactly one result row, an mcq answer
is correct iff it equals the stored `correct_answer` exactly, a
true_false answer is correct iff its lowercasing equals the stored
(lowercase) `correct_answer`, a blank answer is incorrect and counted in
the separate unanswered tally, and the final score is
`100 * correct_count / len(question_ids)`, hence between 0 and 100. -/
theorem submit_scoring_spec (grader : Grader) (exam : Exam) (ids : List Nat)
    (lookup : Nat → Option Question) (answers : Nat → Option String)
    (times : Nat → ℚ) (st dur now : ℚ)
    (hc : exam.completed_at = none)
    (hres : ∀ qid ∈ ids, (lookup qid).isSome)
    (htf : ∀ qid ∈ ids, ∀ q, lookup qid = some q →
      q.question_type = "true_false" →
      pyLower q.correct_answer = q.correct_answer) :
    ((submit_exam grader exam ids lookup answers times true st dur now).new_rows.length
        = ids.length) ∧
    (∀ r ∈ (submit_exam grader exam ids lookup answers times true st dur now).new_rows,
      r.question_id ∈ ids ∧ r.user_answer = answers r.question_id ∧
      ∃ q, lookup r.question_id = some q ∧
        (q.question_type = "mcq" → ∀ a, answers r.question_id = some a → a ≠ "" →
          ((r.is_correct = true) ↔ a = q.correct_answer)) ∧
        (q.question_type = "true_false" → ∀ a, answers r.question_id = some a →
          a ≠ "" → ((r.is_correct = true) ↔ pyLower a = q.correct_answer)) ∧
        (answeredB (answers r.question_id) = false → r.is_correct = false)) ∧
    ((submit_exam grader exam ids lookup answers times true st dur now).unanswered_count
        = ids.countP (fun qid => !answeredB (answers qid))) ∧
    ((submit_exam grader exam ids lookup answers times true st dur now).exam.score
        = some (100 *
          ((submit_exam grader exam ids lookup answers times true st dur now).correct_count : ℚ)
          / (ids.length : ℚ))) ∧
    (∀ sc, (submit_exam grader exam ids lookup answers times true st dur now).exam.score
        = some sc → 0 ≤ sc ∧ sc ≤ 100) := by
  rw [submit_success_eq grader exam ids lookup answers times st dur now hc]
  dsimp only
  refine ⟨?_, ?_, ?_, ?_, ?_⟩
  · rw [scoreLoop_rows]
    exact filterMap_rowOf_length grader exam.id lookup answers times ids hres
  · intro r hr
    rw [scoreLoop_rows] at hr
    obtain ⟨qid, hqid, hrow⟩ := List.mem_filterMap.mp hr
    obtain ⟨q, hq, hrec⟩ := Option.map_eq_some'.mp hrow
    subst hrec
    refine ⟨hqid, rfl, q, hq, ?_, ?_, ?_⟩
    · intro hty a ha hane
      rw [ha]
      exact gradeOne_mcq grader q a hty hane
    · intro hty a ha hane
      rw [ha, ← htf qid hqid q hq hty]
      exact gradeOne_tf grader q a hty hane
    · intro hblank
      exact gradeOne_blank grader q _ hblank
  · rw [scoreLoop_unanswered]
    exact countP_blankB_eq lookup answers ids hres
  · cases ids with
    | nil => simp
    | cons qid rest =>
      simp only [List.isEmpty_cons, Bool.false_eq_true, if_false, Option.some.injEq]
      ring
  · intro sc hsc
    cases ids with
    | nil =>
      simp at hsc
      simp [← hsc]
    | cons qid rest =>
      simp only [List.isEmpty_cons, Bool.false_eq_true, if_false,
        Option.some.injEq] at hsc
      have hle : (scoreLoop grader exam.id lookup answers times (qid :: rest)).1
          ≤ (qid :: rest).length := by
        rw [scoreLoop_correct]
        exact List.countP_le_length _
      have hn : (0 : ℚ) < ((qid :: rest).length : ℚ) := by
        simp only [List.length_cons]
        positivity
      have hcast : ((scoreLoop grader exam.id lookup answers times (qid :: rest)).1 : ℚ)
          ≤ ((qid :: rest).length : ℚ) := by exact_mod_cast hle
      constructor
      · rw [← hsc]
        positivity
      · rw [← hsc]
        calc ((scoreLoop grader exam.id lookup answers times (qid :: rest)).1 : ℚ)
              / ((qid :: rest).length : ℚ) * 100
            ≤ ((qid :: rest).length : ℚ) / ((qid :: rest).length : ℚ) * 100 := by
              gcongr
          _ = 100 := by field_simp

/-- C8: if the grading adapter raises on a short-answer item, that item's
row records `is_correct = false`, every row is still produced by the
normal per-item scoring rule, and the session reaches the completed state
with the final score formula. -/
theorem submit_grader_failure_isolated (grader : Grader) (exam : Exam)
    (ids : List Nat) (lookup : Nat → Option Question)
    (answers : Nat → Option String) (times : Nat → ℚ) (st dur now : ℚ)
    (qid : Nat) (q : Question) (a : String)
    (hc : exam.completed_at = none) (hmem : qid ∈ ids)
    (hq : lookup qid = some q) (hty : q.question_type = "short_answer")
    (ha : answers qid = some a) (hane : a ≠ "")
    (hfail : grader a q.model_answer q.key_points = .error ()) :
    (∃ r ∈ (submit_exam grader exam ids lookup answers times true st dur now).new_rows,
      r.question_id = qid ∧ r.is_correct = false) ∧
    (∀ r ∈ (submit_exam grader exam ids lookup answers times true st dur now).new_rows,
      ∃ qid' q', qid' ∈ ids ∧ lookup qid' = some q' ∧
        r = ⟨exam.id, qid', answers qid',
              gradeOne grader q' (answers qid'), times qid'⟩) ∧
    ((submit_exam grader exam ids lookup answers times true st dur now).exam.completed_at
        = some now) ∧
    ((submit_exam grader exam ids lookup answers times true st dur now).exam.score
        = some (if ids.isEmpty then 0 else
          ((submit_exam grader exam ids lookup answers times true st dur now).correct_count : ℚ)
            / (ids.length : ℚ) * 100)) := by
  rw [submit_success_eq grader exam ids lookup answers times st dur now hc]
  dsimp only
  rw [scoreLoop_rows]
  refine ⟨?_, ?_, rfl, rfl⟩
  · refine ⟨⟨exam.id, qid, answers qid, gradeOne grader q (answers qid), times qid⟩,
      List.mem_filterMap.mpr ⟨qid, hmem, by simp [rowOf, hq]⟩, rfl, ?_⟩
    rw [ha]
    exact gradeOne_sa_error grader q a hty hane hfail
  · intro r hr
    obtain ⟨qid', hmem', hrow⟩ := List.mem_filterMap.mp hr
    obtain ⟨q', hq', hrec⟩ := Option.map_eq_some'.mp hrow
    exact ⟨qid', q', hmem', hq', hrec.symm⟩

/-- Witness for C8: with the always-raising grader, the short-answer item
is recorded incorrect while the submission completes. -/
theorem submit_grader_failure_isolated_witness :
    ∃ r ∈ (submit_exam w8grader ⟨1, none, 2, none⟩ [10, 11] w8lookup w8answers
        (fun _ => 0) true 0 30 999).new_rows,
      r.question_id = 10 ∧ r.is_correct = false :=
  (submit_grader_failure_isolated w8grader ⟨1, none, 2, none⟩ [10, 11]
    w8lookup w8answers (fun _ => 0) 0 30 999 10
    ⟨10, "short_answer", "", "model answer", none⟩ "attempted"
    rfl (by decide) rfl rfl rfl (by decide) rfl).1

/-- Witness for C1 (Scenario E): 10 mcq questions, 7 answered correctly,
3 blank — score 70.0, unanswered tally 3, and the bounds hold at the
computed score. -/
theorem submit_scoring_spec_witness :
    ((submit_exam w8grader ⟨2, none, 10, none⟩ [1, 2, 3, 4, 5, 6, 7, 8, 9, 10]
        w1lookup w1answers (fun _ => 0) true 0 30 555).exam.score = some 70) ∧
    ((submit_exam w8grader ⟨2, none, 10, none⟩ [1, 2, 3, 4, 5, 6, 7, 8, 9, 10]
        w1lookup w1answers (fun _ => 0) true 0 30 555).unanswered_count = 3) ∧
    (0 ≤ (70 : ℚ) ∧ (70 : ℚ) ≤ 100) := by
  have hs : (submit_exam w8grader ⟨2, none, 10, none⟩ [1, 2, 3, 4, 5, 6, 7, 8, 9, 10]
      w1lookup w1answers (fun _ => 0) true 0 30 555).exam.score = some 70 := by
    have h7 : (scoreLoop w8grader 2 w1lookup w1answers (fun _ => 0)
        [1, 2, 3, 4, 5, 6, 7, 8, 9, 10]).1 = 7 := by decide
    rw [submit_success_eq w8grader ⟨2, none, 10, none⟩ [1, 2, 3, 4, 5, 6, 7, 8, 9, 10]
      w1lookup w1answers (fun _ => 0) 0 30 555 rfl]
    dsimp only
    rw [h7]
    norm_num
  refine ⟨hs, by decide, ?_⟩
  refine (submit_scoring_spec w8grader ⟨2, none, 10, none⟩
    [1, 2, 3, 4, 5, 6, 7, 8, 9, 10] w1lookup w1answers (fun _ => 0) 0 30 555
    rfl (by decide) ?_).2.2.2.2 70 hs
  intro qid hqid q hq hty
  unfold w1lookup at hq
  split_ifs at hq with hcond
  injection hq with h
  rw [← h] at hty
  exact absurd hty (by simp)

/-! ### Character-level lemmas for the normalization analysis -/

theorem char_toNat_inj {a b : Char} (h : a.toNat = b.toNat) : a = b := by
  have h2 := congrArg Char.ofNat h
  rwa [Char.ofNat_toNat, Char.ofNat_toNat] at h2

theorem char_toNat_ofNat_small {n : Nat} (h : n < 55296) :
    (Char.ofNat n).toNat = n := by
  unfold Char.ofNat
  split_ifs with hv
  · rfl
  · exact absurd (Or.inl h) hv

theorem pyUpperChar_toNat (c : Char) :
    (pyUpperChar c).toNat =
      if 97 ≤ c.toNat ∧ c.toNat ≤ 122 then c.toNat - 32 else c.toNat := by
  unfold pyUpperChar
  split_ifs with h
  · exact char_toNat_ofNat_small (by omega)
  · rfl

theorem pyUpperChar_eq_self (c : Char)
    (h : ¬ (97 ≤ c.toNat ∧ c.toNat ≤ 122)) : pyUpperChar c = c := by
  unfold pyUpperChar
  rw [if_neg h]

theorem pyUpperChar_idem (c : Char) :
    pyUpperChar (pyUpperChar c) = pyUpperChar c := by
  by_cases h : 97 ≤ c.toNat ∧ c.toNat ≤ 122
  · apply pyUpperChar_eq_self
    rw [pyUpperChar_toNat, if_pos h]
    omega
  · simp only [pyUpperChar_eq_self c h]

theorem isSpace_eq_false_of_ge (c : Char) (h : 33 ≤ c.toNat) :
    isSpace c = false := by
  cases hB : isSpace c with
  | false => rfl
  | true =>
    exfalso
    unfold isSpace at hB
    simp only [Bool.or_eq_true, decide_eq_true_eq] at hB
    rcases hB with ((((hc | hc) | hc) | hc) | hc) | hc <;> subst hc <;>
      exact absurd h (by decide)

theorem isPunct6_eq_false_of_ge (c : Char) (h : 64 ≤ c.toNat) :
    isPunct6 c = false := by
  cases hB : isPunct6 c with
  | false => rfl
  | true =>
    exfalso
    unfold isPunct6 at hB
    simp only [Bool.or_eq_true, decide_eq_true_eq] at hB
    rcases hB with ((((hc | hc) | hc) | hc) | hc) | hc <;> subst hc <;>
      exact absurd h (by decide)

theorem isSpace_pyUpperChar (c : Char) (h : isSpace c = false) :
    isSpace (pyUpperChar c) = false := by
  by_cases hl : 97 ≤ c.toNat ∧ c.toNat ≤ 122
  · apply isSpace_eq_false_of_ge
    rw [pyUpperChar_toNat, if_pos hl]
    omega
  · rw [pyUpperChar_eq_self c hl]
    exact h

theorem isPunct6_pyUpperChar (c : Char) (h : isPunct6 c = false) :
    isPunct6 (pyUpperChar c) = false := by
  by_cases hl : 97 ≤ c.toNat ∧ c.toNat ≤ 122
  · apply isPunct6_eq_false_of_ge
    rw [pyUpperChar_toNat, if_pos hl]
    omega
  · rw [pyUpperChar_eq_self c hl]
    exact h

/-! ### List-level lemmas for the normalization analysis -/

theorem mem_of_getLast? : ∀ {l : List Char} {a : Char},
    l.getLast? = some a → a ∈ l := by
  intro l
  induction l with
  | nil => intro a h; simp at h
  | cons c rest ih =>
    intro a h
    cases rest with
    | nil =>
      simp at h
      simp [h]
    | cons e r =>
      rw [List.getLast?_cons_cons] at h
      exact List.mem_cons_of_mem c (ih h)

theorem head?_dropWhile (p : Char → Bool) :
    ∀ (l : List Char) (z : Char), (l.dropWhile p).head? = some z →
      p z = false := by
  intro l
  induction l with
  | nil => intro z h; simp [List.dropWhile] at h
  | cons c rest ih =>
    intro z h
    by_cases hc : p c
    · simp only [List.dropWhile, hc] at h
      exact ih z h
    · simp only [List.dropWhile, hc] at h
      simp only [List.head?_cons, Option.some.injEq] at h
      rw [← h]
      exact Bool.not_eq_true _ ▸ hc

theorem dropWhile_suffix' (p : Char → Bool) :
    ∀ l : List Char, l.dropWhile p <:+ l := by
  intro l
  induction l with
  | nil => exact List.suffix_rfl
  | cons c rest ih =>
    by_cases hc : p c
    · simp only [List.dropWhile, hc]
      exact ih.trans (List.suffix_cons c rest)
    · simp only [List.dropWhile, hc]
      exact List.suffix_rfl

theorem dropWhile_eq_self_of_head (p : Char → Bool) (L : List Char)
    (hh : ∀ z, L.head? = some z → p z = false) : L.dropWhile p = L := by
  cases L with
  | nil => rfl
  | cons c rest =>
    have hc := hh c rfl
    simp [List.dropWhile, hc]

theorem pyStripL_mem {l : List Char} {c : Char} (h : c ∈ pyStripL l) :
    c ∈ l := by
  unfold pyStripL at h
  rw [List.mem_reverse] at h
  have h2 := (dropWhile_suffix' isSpace ((l.dropWhile isSpace).reverse)).subset h
  rw [List.mem_reverse] at h2
  exact (dropWhile_suffix' isSpace l).subset h2

theorem pyStripL_head (l : List Char) :
    ∀ z, (pyStripL l).head? = some z → isSpace z = false := by
  intro z h
  unfold pyStripL at h
  obtain ⟨t, ht⟩ := dropWhile_suffix' isSpace (l.dropWhile isSpace).reverse
  have hrev : ((l.dropWhile isSpace).reverse.dropWhile isSpace).reverse ++ t.reverse
      = l.dropWhile isSpace := by
    have h2 := congrArg List.reverse ht
    simpa [List.reverse_append] using h2
  cases hBr : ((l.dropWhile isSpace).reverse.dropWhile isSpace).reverse with
  | nil => rw [hBr] at h; simp at h
  | cons z0 rest =>
    rw [hBr] at h
    simp only [List.head?_cons, Option.some.injEq] at h
    subst h
    rw [hBr] at hrev
    have hA : (l.dropWhile isSpace).head? = some z0 := by
      rw [← hrev]
      simp
    exact head?_dropWhile isSpace l z0 hA

theorem pyStripL_getLast (l : List Char) :
    ∀ z, (pyStripL l).getLast? = some z → isSpace z = false := by
  intro z h
  unfold pyStripL at h
  rw [List.getLast?_reverse] at h
  exact head?_dropWhile isSpace _ z h

theorem pyStripL_no_op (L : List Char)
    (hh : ∀ z, L.head? = some z → isSpace z = false)
    (hl : ∀ z, L.getLast? = some z → isSpace z = false) : pyStripL L = L := by
  unfold pyStripL
  rw [dropWhile_eq_self_of_head isSpace L hh]
  rw [dropWhile_eq_self_of_head isSpace L.reverse
    (fun z hz => hl z (by rwa [List.head?_reverse] at hz))]
  exact List.reverse_reverse L

theorem collapseWSA_mem :
    ∀ (l : List Char) (b : Bool) (c : Char), c ∈ collapseWSA b l →
      c = ' ' ∨ c ∈ l := by
  intro l
  induction l with
  | nil => intro b c h; simp [collapseWSA] at h
  | cons d rest ih =>
    intro b c h
    unfold collapseWSA at h
    by_cases hd : isSpace d
    · rw [if_pos hd] at h
      cases b with
      | true =>
        simp only [if_pos rfl] at h
        rcases ih true c h with h1 | h1
        · exact Or.inl h1
        · exact Or.inr (List.mem_cons_of_mem d h1)
      | false =>
        simp only [Bool.false_eq_true, if_false, List.mem_cons] at h
        rcases h with h1 | h1
        · exact Or.inl h1
        · rcases ih true c h1 with h2 | h2
          · exact Or.inl h2
          · exact Or.inr (List.mem_cons_of_mem d h2)
    · rw [if_neg hd] at h
      rcases List.mem_cons.mp h with h1 | h1
      · exact Or.inr (by simp [h1])
      · rcases ih false c h1 with h2 | h2
        · exact Or.inl h2
        · exact Or.inr (List.mem_cons_of_mem d h2)

theorem collapseWSA_spacesNormalized :
    ∀ (l : List Char) (b : Bool) (c : Char), c ∈ collapseWSA b l →
      isSpace c = true → c = ' ' := by
  intro l
  induction l with
  | nil => intro b c h; simp [collapseWSA] at h
  | cons d rest ih =>
    intro b c h hc
    unfold collapseWSA at h
    by_cases hd : isSpace d
    · rw [if_pos hd] at h
      cases b with
      | true =>
        simp only [if_pos rfl] at h
        exact ih true c h hc
      | false =>
        simp only [Bool.false_eq_true, if_false, List.mem_cons] at h
        rcases h with h1 | h1
        · exact h1
        · exact ih true c h1 hc
    · rw [if_neg hd] at h
      rcases List.mem_cons.mp h with h1 | h1
      · exfalso
        rw [h1] at hc
        rw [hc] at hd
        exact hd rfl
      · exact ih false c h1 hc

theorem collapseWSA_head_true :
    ∀ (l : List Char) (z : Char), (collapseWSA true l).head? = some z →
      isSpace z = false := by
  intro l
  induction l with
  | nil => intro z h; simp [collapseWSA] at h
  | cons d rest ih =>
    intro z h
    unfold collapseWSA at h
    by_cases hd : isSpace d
    · rw [if_pos hd] at h
      simp only [if_pos rfl] at h
      exact ih z h
    · rw [if_neg hd] at h
      simp only [List.head?_cons, Option.some.injEq] at h
      rw [← h]
      exact Bool.not_eq_true _ ▸ hd

theorem collapseWSA_chain :
    ∀ (l : List Char) (b : Bool),
      List.Chain' (fun a c => isSpace a = false ∨ isSpace c = false)
        (collapseWSA b l) := by
  intro l
  induction l with
  | nil => intro b; simp [collapseWSA]
  | cons d rest ih =>
    intro b
    unfold collapseWSA
    by_cases hd : isSpace d
    · rw [if_pos hd]
      cases b with
      | true =>
        simp only [if_pos rfl]
        exact ih true
      | false =>
        simp only [Bool.false_eq_true, if_false]
        rw [List.chain'_cons']
        exact ⟨fun y hy => Or.inr (collapseWSA_head_true rest y hy), ih true⟩
    · rw [if_neg hd]
      rw [List.chain'_cons']
      exact ⟨fun y _ => Or.inl (Bool.not_eq_true _ ▸ hd), ih false⟩

theorem collapseWSA_ne_nil :
    ∀ (l : List Char) (b : Bool), (∃ c ∈ l, isSpace c = false) →
      collapseWSA b l ≠ [] := by
  intro l
  induction l with
  | nil => intro b h; simp at h
  | cons d rest ih =>
    intro b h
    unfold collapseWSA
    by_cases hd : isSpace d
    · rw [if_pos hd]
      obtain ⟨c, hc, hcs⟩ := h
      have hcr : c ∈ rest := by
        rcases List.mem_cons.mp hc with h1 | h1
        · exfalso; rw [h1] at hcs; rw [hcs] at hd; exact absurd hd (by decide)
        · exact h1
      cases b with
      | true =>
        simp only [if_pos rfl]
        exact ih true ⟨c, hcr, hcs⟩
      | false =>
        simp only [Bool.false_eq_true, if_false]
        simp
    · rw [if_neg hd]
      simp

theorem collapseWSA_head_false (l : List Char)
    (hh : ∀ z, l.head? = some z → isSpace z = false) :
    ∀ z, (collapseWSA false l).head? = some z → isSpace z = false := by
  cases l with
  | nil => intro z h; simp [collapseWSA] at h
  | cons d rest =>
    intro z h
    have hd := hh d rfl
    unfold collapseWSA at h
    rw [if_neg (by rw [hd]; exact fun h => nomatch h)] at h
    simp only [List.head?_cons, Option.some.injEq] at h
    rw [← h]
    exact hd

theorem collapseWSA_getLast :
    ∀ (l : List Char), (∀ z, l.getLast? = some z → isSpace z = false) →
      ∀ (b : Bool) (z : Char), (collapseWSA b l).getLast? = some z →
        isSpace z = false := by
  intro l
  induction l with
  | nil => intro _ b z h; simp [collapseWSA] at h
  | cons d rest ih =>
    intro hlast b z hz
    cases rest with
    | nil =>
      have hd : isSpace d = false := hlast d (by simp)
      unfold collapseWSA at hz
      rw [if_neg (by rw [hd]; exact fun h => nomatch h)] at hz
      simp only [collapseWSA] at hz
      simp only [List.getLast?_singleton, Option.some.injEq] at hz
      rw [← hz]
      exact hd
    | cons e r =>
      have hrest : ∀ z, (e :: r).getLast? = some z → isSpace z = false :=
        fun z hz' => hlast z (by rw [List.getLast?_cons_cons]; exact hz')
      have hex : ∃ c ∈ (e :: r), isSpace c = false := by
        cases hgl : (e :: r).getLast? with
        | none => simp at hgl
        | some w => exact ⟨w, mem_of_getLast? hgl, hrest w hgl⟩
      unfold collapseWSA at hz
      by_cases hd : isSpace d
      · rw [if_pos hd] at hz
        cases b with
        | true =>
          simp only [if_pos rfl] at hz
          exact ih hrest true z hz
        | false =>
          simp only [Bool.false_eq_true, if_false] at hz
          cases hcw : collapseWSA true (e :: r) with
          | nil => exact absurd hcw (collapseWSA_ne_nil (e :: r) true hex)
          | cons f fs =>
            rw [hcw, List.getLast?_cons_cons] at hz
            exact ih hrest true z (by rw [hcw]; exact hz)
      · rw [if_neg hd] at hz
        cases hcw : collapseWSA false (e :: r) with
        | nil => exact absurd hcw (collapseWSA_ne_nil (e :: r) false hex)
        | cons f fs =>
          rw [hcw, List.getLast?_cons_cons] at hz
          exact ih hrest false z (by rw [hcw]; exact hz)

theorem collapseWSA_no_op :
    ∀ (L : List Char) (b : Bool),
      (∀ c ∈ L, isSpace c = true → c = ' ') →
      List.Chain' (fun a c => isSpace a = false ∨ isSpace c = false) L →
      (b = true → ∀ z, L.head? = some z → isSpace z = false) →
      collapseWSA b L = L := by
  intro L
  induction L with
  | nil => intro b _ _ _; rfl
  | cons d rest ih =>
    intro b hsp hch hb
    unfold collapseWSA
    by_cases hd : isSpace d
    · have hd' : d = ' ' := hsp d (by simp) (by simpa using hd)
      cases b with
      | true =>
        exfalso
        have := hb rfl d rfl
        rw [this] at hd
        exact absurd hd (by decide)
      | false =>
        rw [if_pos hd]
        simp only [Bool.false_eq_true, if_false]
        have hrest : collapseWSA true rest = rest := by
          apply ih true (fun c hc => hsp c (by simp [hc]))
            ((List.chain'_cons'.mp hch).2)
          intro _ z hz
          rcases (List.chain'_cons'.mp hch).1 z hz with h1 | h1
          · exfalso; rw [h1] at hd; exact absurd hd (by decide)
          · exact h1
        rw [hrest, hd']
    · rw [if_neg hd]
      rw [ih false (fun c hc => hsp c (by simp [hc]))
        ((List.chain'_cons'.mp hch).2) (fun h => nomatch h)]

theorem rmSB_keep (P : Char → Bool) (p : Char) (hp : isSpace p = false) :
    ∀ (L : List Char), L ≠ [] →
      (∀ z, L.getLast? = some z → isSpace z = false) →
      (∀ c ∈ L, P c = false) →
      ∀ pending, rmSB P pending (L ++ [p]) = pending ++ L ++ [p] := by
  intro L
  induction L with
  | nil => intro h; exact absurd rfl h
  | cons c L' ih =>
    intro _ hlast hP pending
    have hPc : P c = false := hP c (by simp)
    rw [List.cons_append]
    unfold rmSB
    by_cases hc : isSpace c
    · rw [if_pos hc]
      have hL' : L' ≠ [] := by
        intro hnil
        subst hnil
        have := hlast c (by simp)
        rw [this] at hc
        exact absurd hc (by decide)
      have hlast' : ∀ z, L'.getLast? = some z → isSpace z = false := by
        intro z hz
        apply hlast z
        cases L' with
        | nil => exact absurd rfl hL'
        | cons e r => rw [List.getLast?_cons_cons]; exact hz
      have := ih hL' hlast' (fun d hd => hP d (by simp [hd])) (pending ++ [c])
      rw [this]
      simp
    · rw [if_neg hc]
      rw [if_neg (by rw [hPc]; exact fun h => nomatch h.1)]
      have htail : rmSB P [] (L' ++ [p]) = L' ++ [p] := by
        cases hL' : L' with
        | nil =>
          simp only [List.nil_append]
          unfold rmSB
          rw [if_neg (by rw [hp]; exact fun h => nomatch h)]
          rw [if_neg (by simp)]
          rfl
        | cons e r =>
          subst hL'
          have hlast' : ∀ z, (e :: r).getLast? = some z → isSpace z = false := by
            intro z hz
            apply hlast z
            rw [List.getLast?_cons_cons]
            exact hz
          have := ih (by simp) hlast'
            (fun d hd => hP d (by simp [hd])) []
          simpa using this
      rw [htail]
      simp

theorem addSpaceAfter_no_op (P : Char → Bool) (p : Char) :
    ∀ L : List Char, (∀ c ∈ L, P c = false) →
      addSpaceAfter P (L ++ [p]) = L ++ [p] := by
  intro L
  induction L with
  | nil => intro _; rfl
  | cons c L' ih =>
    intro hP
    have hPc : P c = false := hP c (by simp)
    cases L' with
    | nil =>
      simp only [List.nil_append, List.cons_append]
      simp [addSpaceAfter, hPc]
    | cons e r =>
      rw [List.cons_append]
      have hrec := ih (fun d hd => hP d (by simp [hd]))
      simp only [List.cons_append] at hrec
      simp only [addSpaceAfter, hPc, Bool.false_and, Bool.false_eq_true, if_false,
        List.append_eq]
      rw [hrec]
      simp

theorem collapseRunA_no_op (d p : Char) :
    ∀ L : List Char, (∀ c ∈ L, c ≠ d) →
      collapseRunA d false (L ++ [p]) = L ++ [p] := by
  intro L
  induction L with
  | nil =>
    intro _
    simp only [List.nil_append]
    unfold collapseRunA
    by_cases hp : p = d
    · rw [if_pos hp]
      simp [collapseRunA, hp]
    · rw [if_neg hp]
      rfl
  | cons c L' ih =>
    intro h
    rw [List.cons_append]
    unfold collapseRunA
    rw [if_neg (h c (by simp))]
    rw [ih (fun x hx => h x (by simp [hx]))]

theorem cons_getLast?_isSome (c : Char) (l : List Char) :
    ∃ z, (c :: l).getLast? = some z := by
  induction l generalizing c with
  | nil => exact ⟨c, rfl⟩
  | cons e r ih =>
    obtain ⟨z, hz⟩ := ih e
    exact ⟨z, by rw [List.getLast?_cons_cons]; exact hz⟩

/-- On a punctuation-free word list with a non-space last character, the
capitalize / fix-spacing / collapse-runs tail of the normalization
pipeline only capitalizes the head. -/
theorem pipeline_tail_eq (w : Char) (ws : List Char) (p : Char)
    (hpunct : ∀ c ∈ w :: ws, isPunct6 c = false)
    (hlast : ∀ z, (w :: ws).getLast? = some z → isSpace z = false)
    (hw : isSpace w = false)
    (hpns : isSpace p = false) :
    collapseRun '?' (collapseRun '.' (addSpaceAfter isPunct6
      (rmSpaceBefore isPunct6 (capitalizeHead ((w :: ws) ++ [p])))))
      = (pyUpperChar w :: ws) ++ [p] := by
  have hcap : capitalizeHead ((w :: ws) ++ [p]) = (pyUpperChar w :: ws) ++ [p] := by
    simp [capitalizeHead]
  rw [hcap]
  have hWp : ∀ c ∈ pyUpperChar w :: ws, isPunct6 c = false := by
    intro c hc
    rcases List.mem_cons.mp hc with h | h
    · rw [h]
      exact isPunct6_pyUpperChar w (hpunct w (by simp))
    · exact hpunct c (by simp [h])
  have hWlast : ∀ z, (pyUpperChar w :: ws).getLast? = some z →
      isSpace z = false := by
    cases ws with
    | nil =>
      intro z hz
      simp only [List.getLast?_singleton, Option.some.injEq] at hz
      rw [← hz]
      exact isSpace_pyUpperChar w hw
    | cons e r =>
      intro z hz
      rw [List.getLast?_cons_cons] at hz
      exact hlast z (by rw [List.getLast?_cons_cons]; exact hz)
  have hrm : rmSpaceBefore isPunct6 ((pyUpperChar w :: ws) ++ [p])
      = (pyUpperChar w :: ws) ++ [p] := by
    unfold rmSpaceBefore
    have := rmSB_keep isPunct6 p hpns (pyUpperChar w :: ws) (by simp)
      hWlast hWp []
    simpa using this
  rw [hrm]
  rw [addSpaceAfter_no_op isPunct6 p _ hWp]
  have hdot : ∀ c ∈ pyUpperChar w :: ws, c ≠ '.' := by
    intro c hc h
    have h2 := hWp c hc
    rw [h] at h2
    exact absurd h2 (by decide)
  have hqm : ∀ c ∈ pyUpperChar w :: ws, c ≠ '?' := by
    intro c hc h
    have h2 := hWp c hc
    rw [h] at h2
    exact absurd h2 (by decide)
  unfold collapseRun
  rw [collapseRunA_no_op '.' p _ hdot]
  rw [collapseRunA_no_op '?' p _ hqm]

/-- Any string of the exact shape the normalizer emits on punctuation-free
input — a capitalized, punctuation-free, singly-spaced word list followed
by one terminal `?` or `.` — is a fixed point of the normalizer. -/
theorem auto_fix_fixed_point_shape (u : Char) (us : List Char) (p : Char)
    (hpunct : ∀ c ∈ u :: us, isPunct6 c = false)
    (hspaces : ∀ c ∈ u :: us, isSpace c = true → c = ' ')
    (hchain : List.Chain' (fun a c => isSpace a = false ∨ isSpace c = false)
      (u :: us))
    (hu : isSpace u = false)
    (hlast : ∀ z, (u :: us).getLast? = some z → isSpace z = false)
    (hpp : p = '?' ∨ p = '.')
    (hup : pyUpperChar u = u) :
    auto_fix_question_formatting (String.mk ((u :: us) ++ [p]))
      = String.mk ((u :: us) ++ [p]) := by
  have hpns : isSpace p = false := by
    rcases hpp with h | h <;> rw [h] <;> decide
  have hne : String.mk ((u :: us) ++ [p]) ≠ "" := by
    intro h
    have h2 := congrArg String.data h
    simp at h2
  have hstrip : pyStripL ((u :: us) ++ [p]) = (u :: us) ++ [p] := by
    apply pyStripL_no_op
    · intro z hz
      rw [List.cons_append] at hz
      simp only [List.head?_cons, Option.some.injEq] at hz
      rw [← hz]
      exact hu
    · intro z hz
      rw [List.getLast?_concat] at hz
      simp only [Option.some.injEq] at hz
      rw [← hz]
      exact hpns
  have hcol : collapseWS ((u :: us) ++ [p]) = (u :: us) ++ [p] := by
    unfold collapseWS
    apply collapseWSA_no_op
    · intro c hc hcs
      rcases List.mem_append.mp hc with h | h
      · exact hspaces c h hcs
      · exfalso
        simp only [List.mem_singleton] at h
        rw [h] at hcs
        rw [hpns] at hcs
        exact absurd hcs (by decide)
    · rw [List.chain'_append]
      refine ⟨hchain, List.chain'_singleton p, ?_⟩
      intro x _ y hy
      simp only [Option.mem_def, List.head?_cons, Option.some.injEq] at hy
      subst hy
      exact Or.inr hpns
    · intro h
      exact absurd h (by decide)
  have hcond : p = '.' ∨ p = '?' ∨ p = '!' := by
    rcases hpp with h | h
    · exact Or.inr (Or.inl h)
    · exact Or.inl h
  unfold auto_fix_question_formatting
  rw [if_neg hne]
  dsimp only
  rw [hstrip, hcol, List.getLast?_concat]
  dsimp only
  rw [if_pos hcond]
  rw [pipeline_tail_eq u us p hpunct hlast hu hpns, hup]

/-- C5 counterexample: normalization is not idempotent — at `"...."` the
first pass yields `". . ."` while the second pass yields `". ."` (the
run-collapsing step, ordered after the space-insertion step, creates new
`". x"` contexts for the next pass). -/
theorem normalize_not_idempotent :
    auto_fix_question_formatting (auto_fix_question_formatting "....")
      ≠ auto_fix_question_formatting "...." := by decide

/-- C5 (amended): question-text normalization is idempotent on every text
containing none of the six punctuation characters `. ? ! , ; :` — in
particular on ordinary word-and-whitespace question texts; it is not
idempotent in general (see the counterexample at `"...."`). -/
theorem normalize_idempotent_punct_free (x : String)
    (hx : ∀ c ∈ x.data, isPunct6 c = false) :
    auto_fix_question_formatting (auto_fix_question_formatting x)
      = auto_fix_question_formatting x := by
  by_cases hxe : x = ""
  · rw [hxe]
    rfl
  · have hWpunct : ∀ c ∈ collapseWS (pyStripL x.data), isPunct6 c = false := by
      intro c hc
      unfold collapseWS at hc
      rcases collapseWSA_mem _ false c hc with h | h
      · rw [h]; decide
      · exact hx c (pyStripL_mem h)
    have hWspaces : ∀ c ∈ collapseWS (pyStripL x.data),
        isSpace c = true → c = ' ' := by
      unfold collapseWS
      exact fun c hc => collapseWSA_spacesNormalized _ false c hc
    have hWchain : List.Chain' (fun a c => isSpace a = false ∨ isSpace c = false)
        (collapseWS (pyStripL x.data)) := by
      unfold collapseWS
      exact collapseWSA_chain _ false
    have hWhead : ∀ z, (collapseWS (pyStripL x.data)).head? = some z →
        isSpace z = false := by
      unfold collapseWS
      exact collapseWSA_head_false _ (pyStripL_head x.data)
    have hWlast : ∀ z, (collapseWS (pyStripL x.data)).getLast? = some z →
        isSpace z = false := by
      unfold collapseWS
      exact collapseWSA_getLast _ (pyStripL_getLast x.data) false
    cases hWc : collapseWS (pyStripL x.data) with
    | nil =>
      have hfx : auto_fix_question_formatting x = "" := by
        unfold auto_fix_question_formatting
        rw [if_neg hxe, hWc]
        rfl
      rw [hfx]
      rfl
    | cons w ws =>
      rw [hWc] at hWpunct hWspaces hWchain hWhead hWlast
      have hw : isSpace w = false := hWhead w rfl
      have main : ∀ pc : Char, pc = '?' ∨ pc = '.' →
          auto_fix_question_formatting x
            = String.mk ((pyUpperChar w :: ws) ++ [pc]) →
          auto_fix_question_formatting (auto_fix_question_formatting x)
            = auto_fix_question_formatting x := by
        intro pc hpc hfx
        rw [hfx]
        apply auto_fix_fixed_point_shape
        · intro c hc
          rcases List.mem_cons.mp hc with h | h
          · rw [h]
            exact isPunct6_pyUpperChar w (hWpunct w (by simp))
          · exact hWpunct c (by simp [h])
        · intro c hc hcs
          rcases List.mem_cons.mp hc with h | h
          · exfalso
            rw [h, isSpace_pyUpperChar w hw] at hcs
            exact absurd hcs (by decide)
          · exact hWspaces c (by simp [h]) hcs
        · rw [List.chain'_cons']
          exact ⟨fun y _ => Or.inl (isSpace_pyUpperChar w hw),
            (List.chain'_cons'.mp hWchain).2⟩
        · exact isSpace_pyUpperChar w hw
        · cases ws with
          | nil =>
            intro z hz
            simp only [List.getLast?_singleton, Option.some.injEq] at hz
            rw [← hz]
            exact isSpace_pyUpperChar w hw
          | cons e r =>
            intro z hz
            rw [List.getLast?_cons_cons] at hz
            exact hWlast z (by rw [List.getLast?_cons_cons]; exact hz)
        · exact hpc
        · exact pyUpperChar_idem w
      obtain ⟨lw, hlw⟩ := cons_getLast?_isSome w ws
      have hlwp := hWpunct lw (mem_of_getLast? hlw)
      have hnotp : ¬ (lw = '.' ∨ lw = '?' ∨ lw = '!') := by
        rintro (h | h | h) <;> rw [h] at hlwp <;> exact absurd hlwp (by decide)
      by_cases hst : String.mk ((firstWordL (w :: ws)).map pyLowerChar)
          ∈ question_starters
      · apply main '?' (Or.inl rfl)
        unfold auto_fix_question_formatting
        rw [if_neg hxe, hWc]
        dsimp only
        rw [hlw]
        dsimp only
        rw [if_neg hnotp, if_pos hst]
        rw [pipeline_tail_eq w ws '?' hWpunct hWlast hw (by decide)]
      · apply main '.' (Or.inr rfl)
        unfold auto_fix_question_formatting
        rw [if_neg hxe, hWc]
        dsimp only
        rw [hlw]
        dsimp only
        rw [if_neg hnotp, if_neg hst]
        rw [pipeline_tail_eq w ws '.' hWpunct hWlast hw (by decide)]

/-- Witness for C5 (amended) at a punctuation-free concrete question. -/
theorem normalize_idempotent_punct_free_witness :
    (∀ c ∈ ("what is  the boiling point of water" : String).data,
      isPunct6 c = false) ∧
    auto_fix_question_formatting
        (auto_fix_question_formatting "what is  the boiling point of water")
      = auto_fix_question_formatting "what is  the boiling point of water" :=
  ⟨by decide, normalize_idempotent_punct_free _ (by decide)⟩

/-- Witness for C9 at a concrete expired in-progress session. -/
theorem submit_persist_failure_paths_witness :
    ((1800 - 0 : ℚ) / 60 ≥ 30) ∧
    (submit_exam (fun _ _ _ => Except.error ()) ⟨3, none, 5, none⟩ [1]
        (fun _ => none) (fun _ => none) (fun _ => 0) false 0 30 1800).exam.completed_at
      = some 1800 ∧
    (submit_exam (fun _ _ _ => Except.error ()) ⟨3, none, 5, none⟩ [1]
        (fun _ => none) (fun _ => none) (fun _ => 0) false 0 30 1800).exam.score
      = some 0 ∧
    (submit_exam (fun _ _ _ => Except.error ()) ⟨3, none, 5, none⟩ [1]
        (fun _ => none) (fun _ => none) (fun _ => 0) false 0 30 1800).new_rows
      = [] := by
  have h := (submit_persist_failure_paths (fun _ _ _ => Except.error ())
    ⟨3, none, 5, none⟩ [1] (fun _ => none) (fun _ => none) (fun _ => 0)
    0 30 1800 rfl).1 (by norm_num)
  exact ⟨by norm_num, h.1, h.2.1, h.2.2⟩

end ExamSim
